import Mathlib

/-!
Shallow embedding of the tic-tac-toe game core
(`src/unnamed/part_000` and `src/tic_tac_toe_frontend/src/App.js`).

Modelling conventions:
* A JS cell holds `"X"`, `"O"` or `null`; we model it as `Option Mark`
  (`none` = `null` = Empty).
* The JS board is a 3×3 array of arrays; we model a snapshot as a total
  function `Fin 3 → Fin 3 → Option Mark`.  Out-of-range indexing
  `board[r][c]` is modelled by `cellAt`: for `r < 3`, `c ≥ 3` the JS
  value is `undefined` (falsy), modelled as `none`; for `r ≥ 3` the JS
  expression throws a `TypeError` (`undefined[c]`), which callers model
  explicitly before calling `cellAt`.
* React state (`board`, `isXNext`, `history`, `step`, `mode`) becomes the
  record `SessionState`; each handler becomes a function from the old
  state to the new state.  Presentation-only state (`status`,
  `winningLine`, `isMobile`, `error`, `aiThinking`) is not modelled.
-/

inductive Mark where
  | X
  | O
deriving DecidableEq, Repr

abbrev Board := Fin 3 → Fin 3 → Option Mark

/-- `createEmptyBoard()` returns the all-`null` 3×3 grid. -/
def createEmptyBoard : Board := fun _ _ => none

/-- JS `board[r][c]` for `r < 3`: in-range cell, or `undefined` (falsy,
modelled `none`) when `c ≥ 3`.  Callers handle the `r ≥ 3` throw case
before calling. -/
def cellAt (b : Board) (r c : Nat) : Option Mark :=
  if hr : r < 3 then
    if hc : c < 3 then b ⟨r, hr⟩ ⟨c, hc⟩ else none
  else none

/-- The 8 fixed winning lines, in source order: 3 rows, 3 columns,
2 diagonals. -/
def lines : List (List (Nat × Nat)) :=
  [ [(0,0), (0,1), (0,2)],
    [(1,0), (1,1), (1,2)],
    [(2,0), (2,1), (2,2)],
    [(0,0), (1,0), (2,0)],
    [(0,1), (1,1), (2,1)],
    [(0,2), (1,2), (2,2)],
    [(0,0), (1,1), (2,2)],
    [(0,2), (1,1), (2,0)] ]

/-- One iteration body of the `for (let line of lines)` loop:
`board[a][b] && board[a][b]===board[c][d] && board[a][b]===board[e][f]`
yields the shared mark, else nothing. -/
def winLine (b : Board) (l : List (Nat × Nat)) : Option Mark :=
  match l with
  | [p, q, r] =>
    match cellAt b p.1 p.2 with
    | some m =>
      if cellAt b q.1 q.2 = some m ∧ cellAt b r.1 r.2 = some m then some m else none
    | none => none
  | _ => none

/-- The loop over `lines`: first line whose three cells share a mark. -/
def findWin (b : Board) : List (List (Nat × Nat)) → Option (Mark × List (Nat × Nat))
  | [] => none
  | l :: ls =>
    match winLine b l with
    | some m => some (m, l)
    | none => findWin b ls

/-- `board.every(row => row.every(cell => cell))`. -/
def isFull (b : Board) : Bool :=
  decide (∀ i j : Fin 3, (b i j).isSome = true)

/-- Result object of `calculateWinner`: `{winner, line}` or the draw
object `{winner: null, line: null, draw: true}`; the JS `null` return
(game in progress) is `none` at the `Option` level. -/
inductive WinnerInfo where
  | winner (m : Mark) (line : List (Nat × Nat))
  | draw
deriving DecidableEq, Repr

/-- `calculateWinner(board)`. -/
def calculateWinner (board : Board) : Option WinnerInfo :=
  match findWin board lines with
  | some (m, l) => some (WinnerInfo.winner m l)
  | none => if isFull board then some WinnerInfo.draw else none

/-- Row-major cell order of the two nested `for` loops in
`findBestMove`. -/
def rowMajor : List (Nat × Nat) :=
  [(0,0), (0,1), (0,2), (1,0), (1,1), (1,2), (2,0), (2,1), (2,2)]

/-- The loop of `findBestMove`: first cell with `!board[i][j]`. -/
def scanEmpty (b : Board) : List (Nat × Nat) → Option (Nat × Nat)
  | [] => none
  | p :: ps => if cellAt b p.1 p.2 = none then some p else scanEmpty b ps

/-- `findBestMove(board)`: first available cell in row-major order,
`null` (here `none`) if the board is full. -/
def findBestMove (b : Board) : Option (Nat × Nat) :=
  scanEmpty b rowMajor

/-- Build a board from row-major nested lists (helper for concrete
test boards; absent rows/cells count as Empty). -/
def mkBoard (rows : List (List (Option Mark))) : Board :=
  fun i j => ((rows.get? i.val).bind fun r => r.get? j.val).join

/-- `mode` select value: `"pvp"` or `"pvc"`. -/
inductive Mode where
  | pvp
  | pvc
deriving DecidableEq, Repr

/-- One element of the `history` array:
`{ board, move, player }`.  The source stores a move array or `null` in
`move`, and a mark string in `player`; `player` is modelled as
`Option Mark` because the JS field could hold `null` (as `move` does),
though the source always stores a mark there. -/
structure HistoryEntry where
  board : Board
  move : Option (Nat × Nat)
  player : Option Mark

/-- The game-relevant React state of `App`. -/
structure SessionState where
  board : Board
  isXNext : Bool
  history : List HistoryEntry
  step : Nat
  mode : Mode

/-- The initial history entry `{ board: createEmptyBoard(), move: null,
player: "X" }`. -/
def initEntry : HistoryEntry :=
  { board := createEmptyBoard, move := none, player := some Mark.X }

/-- The initial state set up by the `useState` calls. -/
def initApp : SessionState :=
  { board := createEmptyBoard
    isXNext := true
    history := [initEntry]
    step := 0
    mode := Mode.pvp }

/-- Outcome of one `handleCellClick` call: the guard returned early
(`rejected`), the guard threw a `TypeError` on `board[row][col]` with
`row ≥ 3` (`threw`), or the state updates ran (`applied`). -/
inductive ClickResult where
  | applied (s : SessionState)
  | rejected
  | threw

/-- `const player = isXNext ? "X" : "O"`. -/
def currentPlayer (s : SessionState) : Mark :=
  if s.isXNext then Mark.X else Mark.O

/-- `const nextBoard = board.map((r,i) => r.map((cell,j) =>
(i === row && j === col ? player : cell)))`.  Note that when `col ≥ 3`
no index pair matches and the board is returned cell-for-cell
unchanged. -/
def nextBoardOf (s : SessionState) (row col : Nat) : Board :=
  fun i j =>
    if (i : Nat) = row ∧ (j : Nat) = col then some (currentPlayer s) else s.board i j

/-- The appended `{ board: nextBoard, move: [row, col], player }`. -/
def newEntry (s : SessionState) (row col : Nat) : HistoryEntry :=
  { board := nextBoardOf s row col, move := some (row, col), player := some (currentPlayer s) }

/-- `const nextHistory = history.slice(0, step + 1).concat([...])`. -/
def nextHistoryOf (s : SessionState) (row col : Nat) : List HistoryEntry :=
  s.history.take (s.step + 1) ++ [newEntry s row col]

/-- The state after the four `set...` calls of a non-rejected click. -/
def appliedState (s : SessionState) (row col : Nat) : SessionState :=
  { board := nextBoardOf s row col
    isXNext := !s.isXNext
    history := nextHistoryOf s row col
    step := (nextHistoryOf s row col).length - 1
    mode := s.mode }

/-- `handleCellClick(row, col, computerMove)`.  The JS guard is
`calculateWinner(board) || board[row][col] || (mode === "pvc" &&
!isXNext && !computerMove)`; `||` short-circuits left to right, and
`board[row][col]` throws a `TypeError` when `row ≥ 3`. -/
def handleCellClick (s : SessionState) (row col : Nat) (computerMove : Bool) : ClickResult :=
  if (calculateWinner s.board).isSome then ClickResult.rejected
  else if 3 ≤ row then ClickResult.threw
  else if (cellAt s.board row col).isSome then ClickResult.rejected
  else if s.mode = Mode.pvc ∧ s.isXNext = false ∧ computerMove = false then ClickResult.rejected
  else ClickResult.applied (appliedState s row col)

/-- `jumpTo(stepIdx)`.  The source has no bounds check: `setStep(stepIdx)`
runs first, then `history[stepIdx].board` throws a `TypeError` for an
out-of-range index, so the remaining setters never run while the
already-scheduled `setStep` update still commits.  The `Bool` component
records whether the call ran to completion (`false` = it threw). -/
def jumpTo (s : SessionState) (stepIdx : Nat) : SessionState × Bool :=
  if h : stepIdx < s.history.length then
    ({ s with
        step := stepIdx
        board := (s.history.get ⟨stepIdx, h⟩).board
        isXNext := decide (stepIdx % 2 = 0) }, true)
  else
    ({ s with step := stepIdx }, false)

/-- `handleReset()` (mode is left as it was). -/
def handleReset (s : SessionState) : SessionState :=
  { board := createEmptyBoard
    isXNext := true
    history := [initEntry]
    step := 0
    mode := s.mode }

/-- `handleModeChange(e)`: `setMode(e.target.value)` then
`handleReset()`. -/
def handleModeChange (s : SessionState) (m : Mode) : SessionState :=
  { handleReset s with mode := m }

/-- State observed after a `handleCellClick` call: the new state when the
updates ran, the old state otherwise (early return / throw). -/
def applyClick (s : SessionState) (r : ClickResult) : SessionState :=
  match r with
  | ClickResult.applied s2 => s2
  | ClickResult.rejected => s
  | ClickResult.threw => s

/-- The two fallback sites in `doAIMove` (invalid-move branch and the
`catch` branch): `let fallback = findBestMove(board); if (fallback)
handleCellClick(fallback[0], fallback[1], true)`. -/
def fallbackAIMove (s : SessionState) : SessionState :=
  match findBestMove s.board with
  | some (i, j) => applyClick s (handleCellClick s i j true)
  | none => s

/-- `doAIMove` on the configured-client path, parameterised by the result
of `await getOpenAIMove(board)`: `Except.error` models the awaited call
throwing (network/API error, caught by the `catch` branch), `Except.ok`
carries the parsed value (`none` = JS `null`).  The validity check is
`!move || move.length !== 2 || board[move[0]][move[1]]`; evaluating
`board[move[0]][move[1]]` with `move[0] ≥ 3` throws inside the `try`,
which lands in the same `catch`-plus-fallback branch.  Coordinates are
modelled as `Nat` (the regex path only produces digit sequences). -/
def doAIMove (s : SessionState) (resp : Except Unit (Option (List Nat))) : SessionState :=
  match resp with
  | Except.error _ => fallbackAIMove s
  | Except.ok none => fallbackAIMove s
  | Except.ok (some mv) =>
    match mv with
    | [r, c] =>
      if 3 ≤ r then fallbackAIMove s
      else if (cellAt s.board r c).isSome then fallbackAIMove s
      else applyClick s (handleCellClick s r c true)
    | _ => fallbackAIMove s

/-! ### Response parsing in `getOpenAIMove`

JS: `let raw = content.trim(); const match = raw.match(/\x5b *\d+ *, *\d+ *\x5d/);
if (match) return JSON.parse(match[0]); if (raw.startsWith("[")) return
JSON.parse(raw);` with the whole block in a `try` whose `catch` (and the
fall-through) return `null`. -/

/-- Whitespace stripped by `String.prototype.trim`: the ECMAScript
WhiteSpace set (TAB, VT, FF, SP, NBSP, ZWNBSP and the Unicode
space-separator category) together with the LineTerminator set
(LF, CR, LS, PS). -/
def isTrimWs (c : Char) : Bool :=
  c == ' ' || c == '\t' || c == '\n' || c == '\r' ||
  c == '\x0b' || c == '\x0c' || c == '\u00a0' || c == '\ufeff' ||
  c == '\u1680' || (0x2000 ≤ c.toNat && c.toNat ≤ 0x200a) ||
  c == '\u2028' || c == '\u2029' || c == '\u202f' ||
  c == '\u205f' || c == '\u3000'

/-- `raw.trim()` over the character list. -/
def trimChars (l : List Char) : List Char :=
  ((l.dropWhile isTrimWs).reverse.dropWhile isTrimWs).reverse

/-- Consume leading decimal digits (regex `\d+`), returning the parsed
value and the rest; fails without a leading digit. -/
def takeDigits (l : List Char) (acc : Nat) (seen : Bool) : Option (Nat × List Char) :=
  match l with
  | c :: rest =>
    if c.isDigit then takeDigits rest (acc * 10 + (c.toNat - '0'.toNat)) true
    else if seen then some (acc, l) else none
  | [] => if seen then some (acc, l) else none

/-- Consume regex ` *` (literal spaces only). -/
def takeSpaces (l : List Char) : List Char :=
  l.dropWhile (fun c => c == ' ')

/-- Match the regex `\x5b *\d+ *, *\d+ *\x5d` at the head of the list,
returning the matched substring (JS `match[0]`) — the prefix of `l` up
to and including the closing bracket. -/
def matchPairAt (l : List Char) : Option (List Char) :=
  match l with
  | '[' :: r1 =>
    match takeDigits (takeSpaces r1) 0 false with
    | some (_, r2) =>
      (match takeSpaces r2 with
       | ',' :: r3 =>
         (match takeDigits (takeSpaces r3) 0 false with
          | some (_, r4) =>
            (match takeSpaces r4 with
             | ']' :: rest => some (l.take (l.length - rest.length))
             | _ => none)
          | none => none)
       | _ => none)
    | none => none
  | _ => none

/-- `raw.match(regex)`: leftmost match of the pattern in the text. -/
def scanFirstPair : List Char → Option (List Char)
  | [] => none
  | c :: rest =>
    match matchPairAt (c :: rest) with
    | some m => some m
    | none => scanFirstPair rest

/-- JSON whitespace accepted by `JSON.parse` (space, TAB, LF, CR
only — narrower than the `trim` set). -/
def isJsonWs (c : Char) : Bool :=
  c == ' ' || c == '\t' || c == '\n' || c == '\r'

def skipJsonWs (l : List Char) : List Char :=
  l.dropWhile isJsonWs

/-- A JSON integer literal (nonnegative): `0`, or a nonzero digit
followed by digits.  A leading zero followed by another digit — e.g.
`01` — is a JSON `SyntaxError`, even though the regex `\d+` accepts
it. -/
def takeJsonInt (l : List Char) : Option (Nat × List Char) :=
  match l with
  | '0' :: c2 :: rest =>
    if c2.isDigit then none else some (0, c2 :: rest)
  | ['0'] => some (0, [])
  | c :: rest =>
    if c.isDigit then takeDigits (c :: rest) 0 false else none
  | [] => none

/-- After the first array element: `(ws ',' ws int)* ws ']'`;
returns the remaining input after the closing bracket.  Fuelled
recursion (each step consumes at least the comma). -/
def parseTail (fuel : Nat) (acc : List Nat) (l : List Char) : Option (List Nat × List Char) :=
  match fuel with
  | 0 => none
  | f + 1 =>
    match skipJsonWs l with
    | ']' :: r => some (acc.reverse, r)
    | ',' :: r =>
      (match takeJsonInt (skipJsonWs r) with
       | some (n, r2) => parseTail f (n :: acc) r2
       | none => none)
    | _ => none

/-- `JSON.parse(raw)` restricted to arrays of nonnegative integer
literals (the only JSON shape these claims need); anything else —
including a parse error such as a leading-zero numeral, which JS raises
and the `catch` turns into `null` — is `none`. -/
def parseJsonNatArray (s : List Char) : Option (List Nat) :=
  match skipJsonWs s with
  | '[' :: r =>
    (match skipJsonWs r with
     | ']' :: rest => if skipJsonWs rest = [] then some [] else none
     | r1 =>
       match takeJsonInt r1 with
       | some (n, r2) =>
         (match parseTail s.length [n] r2 with
          | some (ns, rest) => if skipJsonWs rest = [] then some ns else none
          | none => none)
       | none => none)
  | _ => none

/-- Parsing on the trimmed character list: scan for the first `[r, c]`
pattern and `JSON.parse` the matched substring (`JSON.parse(match[0])`,
which throws — yielding `null` — on a leading-zero numeral); else, when
the text starts with `[` (JS `raw.startsWith("[")`), `JSON.parse` the
whole text; else `null`. -/
def getOpenAIMoveParseList (t : List Char) : Option (List Nat) :=
  match scanFirstPair t with
  | some m => parseJsonNatArray m
  | none => if t.head? = some '[' then parseJsonNatArray t else none

/-- The response-parsing step of `getOpenAIMove` (after
`content.trim()`). -/
def getOpenAIMoveParse (raw : String) : Option (List Nat) :=
  getOpenAIMoveParseList (trimChars raw.toList)

/-! ### Outcome evaluator characterisation (claim C1) -/

/-- Spec-side reading of a complete line: all three (in general, all)
cells of `l` hold the same non-Empty mark `m`. -/
def sameMarkLine (b : Board) (l : List (Nat × Nat)) (m : Mark) : Prop :=
  ∀ p ∈ l, cellAt b p.1 p.2 = some m

theorem winLine_some_iff (b : Board) (p q r : Nat × Nat) (m : Mark) :
    winLine b [p, q, r] = some m ↔ sameMarkLine b [p, q, r] m := by
  unfold winLine sameMarkLine
  cases h : cellAt b p.1 p.2 with
  | none => simp [h]
  | some m0 =>
    simp only [h]
    constructor
    · intro hw
      split_ifs at hw with h2
      · injection hw with hm
        subst hm
        simp [h, h2.1, h2.2]
    · intro hall
      simp only [List.forall_mem_cons] at hall
      obtain ⟨hp, hq, hr2, -⟩ := hall
      rw [h] at hp
      injection hp with hm
      subst hm
      simp [h, hq, hr2]

theorem winLine_none_iff (b : Board) (p q r : Nat × Nat) :
    winLine b [p, q, r] = none ↔ ∀ m, ¬ sameMarkLine b [p, q, r] m := by
  constructor
  · intro h0 m hm
    have := (winLine_some_iff b p q r m).mpr hm
    rw [h0] at this
    exact absurd this (by simp)
  · intro hall
    cases h : winLine b [p, q, r] with
    | none => rfl
    | some m => exact absurd ((winLine_some_iff b p q r m).mp h) (hall m)

theorem line_shape (l : List (Nat × Nat)) (hl : l ∈ lines) :
    ∃ p q r, l = [p, q, r] := by
  fin_cases hl <;> exact ⟨_, _, _, rfl⟩

theorem winLine_some_iff_mem (b : Board) (l : List (Nat × Nat)) (hl : l ∈ lines) (m : Mark) :
    winLine b l = some m ↔ sameMarkLine b l m := by
  obtain ⟨p, q, r, rfl⟩ := line_shape l hl
  exact winLine_some_iff b p q r m

theorem winLine_none_iff_mem (b : Board) (l : List (Nat × Nat)) (hl : l ∈ lines) :
    winLine b l = none ↔ ∀ m, ¬ sameMarkLine b l m := by
  obtain ⟨p, q, r, rfl⟩ := line_shape l hl
  exact winLine_none_iff b p q r

theorem findWin_eq_none (b : Board) (ls : List (List (Nat × Nat))) :
    findWin b ls = none ↔ ∀ l ∈ ls, winLine b l = none := by
  induction ls with
  | nil => simp [findWin]
  | cons hd tl ih =>
    cases h : winLine b hd with
    | some m => simp [findWin, h]
    | none => simp [findWin, h, ih]

theorem findWin_eq_some (b : Board) (ls : List (List (Nat × Nat)))
    (m : Mark) (l : List (Nat × Nat)) :
    findWin b ls = some (m, l) ↔
      ∃ i, ls.get? i = some l ∧ winLine b l = some m ∧
        ∀ j, j < i → ∀ l2, ls.get? j = some l2 → winLine b l2 = none := by
  induction ls with
  | nil => simp [findWin]
  | cons hd tl ih =>
    cases h : winLine b hd with
    | some m0 =>
      simp only [findWin, h]
      constructor
      · intro he
        injection he with he2
        injection he2 with hm hl
        subst hm
        subst hl
        exact ⟨0, rfl, h, fun j hj => absurd hj (by omega)⟩
      · rintro ⟨i, hget, hw, hmin⟩
        cases i with
        | zero =>
          simp only [List.get?] at hget
          injection hget with hg3
          subst hg3
          rw [h] at hw
          injection hw with hm
          subst hm
          rfl
        | succ i2 =>
          have h0 := hmin 0 (by omega) hd rfl
          rw [h] at h0
          exact absurd h0 (by simp)
    | none =>
      simp only [findWin, h]
      rw [ih]
      constructor
      · rintro ⟨i, hget, hw, hmin⟩
        refine ⟨i + 1, by simpa using hget, hw, ?_⟩
        rintro j hj l2 hg2
        cases j with
        | zero =>
          simp only [List.get?] at hg2
          injection hg2 with hg3
          subst hg3
          exact h
        | succ j2 => exact hmin j2 (by omega) l2 (by simpa using hg2)
      · rintro ⟨i, hget, hw, hmin⟩
        cases i with
        | zero =>
          simp only [List.get?] at hget
          injection hget with hg3
          subst hg3
          rw [h] at hw
          exact absurd hw (by simp)
        | succ i2 =>
          exact ⟨i2, by simpa using hget, hw, fun j hj l2 hg2 =>
            hmin (j + 1) (by omega) l2 (by simpa using hg2)⟩

theorem calculateWinner_winner_iff (b : Board) (m : Mark) (l : List (Nat × Nat)) :
    calculateWinner b = some (WinnerInfo.winner m l) ↔ findWin b lines = some (m, l) := by
  unfold calculateWinner
  cases h : findWin b lines with
  | some ml =>
    obtain ⟨m2, l2⟩ := ml
    simp [h]
  | none =>
    simp only [h]
    split_ifs <;> simp

theorem calculateWinner_draw_iff (b : Board) :
    calculateWinner b = some WinnerInfo.draw ↔ findWin b lines = none ∧ isFull b = true := by
  unfold calculateWinner
  cases h : findWin b lines with
  | some ml =>
    obtain ⟨m2, l2⟩ := ml
    simp [h]
  | none =>
    simp only [h]
    split_ifs with hf <;> simp [hf]

theorem calculateWinner_none_iff (b : Board) :
    calculateWinner b = none ↔ findWin b lines = none ∧ isFull b = false := by
  unfold calculateWinner
  cases h : findWin b lines with
  | some ml =>
    obtain ⟨m2, l2⟩ := ml
    simp [h]
  | none =>
    simp only [h]
    split_ifs with hf <;> simp [hf]

theorem isFull_iff (b : Board) : isFull b = true ↔ ∀ i j : Fin 3, b i j ≠ none := by
  unfold isFull
  rw [decide_eq_true_iff]
  simp [Option.isSome_iff_ne_none]

/-- The win-detection example board `[[A,A,A],[Empty,B,Empty],[B,Empty,Empty]]`
(A = X, B = O). -/
def boardC1 : Board :=
  mkBoard [[some Mark.X, some Mark.X, some Mark.X],
    [none, some Mark.O, none], [some Mark.O, none, none]]

/-- Claim C1: `calculateWinner` checks the 8 fixed lines in the order
3 rows, 3 columns, 2 diagonals (the `lines` list) and reports the mark
and the first line (in that order) whose three cells hold the same
non-Empty mark; with no such line it reports the draw object iff every
cell is non-Empty and `null` (in-progress) otherwise.  The example board
`[[A,A,A],[Empty,B,Empty],[B,Empty,Empty]]` evaluates to a win for A=X
with line `[(0,0),(0,1),(0,2)]`. -/
theorem calculateWinner_spec (b : Board) :
    (∀ (m : Mark) (l : List (Nat × Nat)),
        calculateWinner b = some (WinnerInfo.winner m l) ↔
          ∃ i, lines.get? i = some l ∧ sameMarkLine b l m ∧
            ∀ j, j < i → ∀ l2, lines.get? j = some l2 → ∀ m2, ¬ sameMarkLine b l2 m2) ∧
    (calculateWinner b = some WinnerInfo.draw ↔
        (∀ l ∈ lines, ∀ m, ¬ sameMarkLine b l m) ∧ ∀ i j : Fin 3, b i j ≠ none) ∧
    (calculateWinner b = none ↔
        (∀ l ∈ lines, ∀ m, ¬ sameMarkLine b l m) ∧ ¬ ∀ i j : Fin 3, b i j ≠ none) ∧
    calculateWinner boardC1 = some (WinnerInfo.winner Mark.X [(0,0), (0,1), (0,2)]) := by
  refine ⟨?_, ?_, ?_, by decide⟩
  · intro m l
    rw [calculateWinner_winner_iff, findWin_eq_some]
    constructor
    · rintro ⟨i, hget, hw, hmin⟩
      have hl : l ∈ lines := List.get?_mem hget
      refine ⟨i, hget, (winLine_some_iff_mem b l hl m).mp hw, ?_⟩
      intro j hj l2 hg2 m2 hm2
      have hl2 : l2 ∈ lines := List.get?_mem hg2
      exact (winLine_none_iff_mem b l2 hl2).mp (hmin j hj l2 hg2) m2 hm2
    · rintro ⟨i, hget, hw, hmin⟩
      have hl : l ∈ lines := List.get?_mem hget
      refine ⟨i, hget, (winLine_some_iff_mem b l hl m).mpr hw, ?_⟩
      intro j hj l2 hg2
      have hl2 : l2 ∈ lines := List.get?_mem hg2
      exact (winLine_none_iff_mem b l2 hl2).mpr (hmin j hj l2 hg2)
  · rw [calculateWinner_draw_iff, findWin_eq_none]
    constructor
    · rintro ⟨hnone, hfull⟩
      exact ⟨fun l hl m hm => (winLine_none_iff_mem b l hl).mp (hnone l hl) m hm,
        (isFull_iff b).mp hfull⟩
    · rintro ⟨hnone, hfull⟩
      exact ⟨fun l hl => (winLine_none_iff_mem b l hl).mpr (hnone l hl),
        (isFull_iff b).mpr hfull⟩
  · rw [calculateWinner_none_iff, findWin_eq_none]
    constructor
    · rintro ⟨hnone, hfull⟩
      refine ⟨fun l hl m hm => (winLine_none_iff_mem b l hl).mp (hnone l hl) m hm, ?_⟩
      intro hcon
      rw [← isFull_iff b] at hcon
      rw [hfull] at hcon
      exact absurd hcon (by simp)
    · rintro ⟨hnone, hfull⟩
      refine ⟨fun l hl => (winLine_none_iff_mem b l hl).mpr (hnone l hl), ?_⟩
      cases hisf : isFull b with
      | false => rfl
      | true => exact absurd ((isFull_iff b).mp hisf) hfull

/-- Claim C1 witness: the example-board conjunct, instantiated. -/
theorem calculateWinner_spec_example :
    calculateWinner boardC1 = some (WinnerInfo.winner Mark.X [(0,0), (0,1), (0,2)]) :=
  (calculateWinner_spec boardC1).2.2.2

/-! ### Fallback move selector (claim C6) -/

theorem findBestMove_eq_none_iff (b : Board) :
    findBestMove b = none ↔ isFull b = true := by
  unfold findBestMove rowMajor
  rw [isFull_iff]
  simp only [scanEmpty]
  split_ifs with h1 h2 h3 h4 h5 h6 h7 h8 h9
  · exact iff_of_false (by simp) (fun hfull => hfull 0 0 h1)
  · exact iff_of_false (by simp) (fun hfull => hfull 0 1 h2)
  · exact iff_of_false (by simp) (fun hfull => hfull 0 2 h3)
  · exact iff_of_false (by simp) (fun hfull => hfull 1 0 h4)
  · exact iff_of_false (by simp) (fun hfull => hfull 1 1 h5)
  · exact iff_of_false (by simp) (fun hfull => hfull 1 2 h6)
  · exact iff_of_false (by simp) (fun hfull => hfull 2 0 h7)
  · exact iff_of_false (by simp) (fun hfull => hfull 2 1 h8)
  · exact iff_of_false (by simp) (fun hfull => hfull 2 2 h9)
  · refine iff_of_true rfl (fun i j => ?_)
    fin_cases i <;> fin_cases j <;>
      first
        | exact h1
        | exact h2
        | exact h3
        | exact h4
        | exact h5
        | exact h6
        | exact h7
        | exact h8
        | exact h9

theorem findBestMove_eq_some_first (b : Board) (r c : Nat)
    (h : findBestMove b = some (r, c)) :
    r < 3 ∧ c < 3 ∧ cellAt b r c = none ∧
      ∀ r2 c2, r2 < 3 → c2 < 3 → 3 * r2 + c2 < 3 * r + c → cellAt b r2 c2 ≠ none := by
  unfold findBestMove rowMajor at h
  simp only [scanEmpty] at h
  split_ifs at h with h1 h2 h3 h4 h5 h6 h7 h8 h9 <;>
    (injection h with h0
     injection h0 with hr hc
     subst hr
     subst hc
     refine ⟨by omega, by omega, by assumption, ?_⟩
     intro r2 c2 hr2 hc2 hlt
     interval_cases r2 <;> interval_cases c2 <;>
       first
         | exact absurd hlt (by omega)
         | assumption)

/-- The example board `[[A,A,Empty],[Empty,Empty,Empty],[Empty,Empty,Empty]]`
(A = X). -/
def boardC6 : Board :=
  mkBoard [[some Mark.X, some Mark.X, none],
    [none, none, none], [none, none, none]]

/-- Claim C6: on a board with an Empty cell, `findBestMove` returns the
first Empty cell in row-major order (row 0→2, then column 0→2 inside a
row: any in-range cell strictly earlier in that order is occupied); on a
full board it returns `null` (`none`, the `NoLegalMoveError` outcome).
On `[[A,A,Empty],...]` it returns `(0,2)`. -/
theorem findBestMove_spec (b : Board) :
    (findBestMove b = none ↔ isFull b = true) ∧
    (∀ r c, findBestMove b = some (r, c) →
        r < 3 ∧ c < 3 ∧ cellAt b r c = none ∧
          ∀ r2 c2, r2 < 3 → c2 < 3 → 3 * r2 + c2 < 3 * r + c → cellAt b r2 c2 ≠ none) ∧
    findBestMove boardC6 = some (0, 2) :=
  ⟨findBestMove_eq_none_iff b,
   fun r c h => findBestMove_eq_some_first b r c h,
   by decide⟩

/-- Claim C6 witness: instantiated at the example board; the
`findBestMove boardC6 = some (0, 2)` hypothesis is evaluated by
`decide`. -/
theorem findBestMove_spec_witness : cellAt boardC6 0 2 = none :=
  ((findBestMove_spec boardC6).2.1 0 2 (by decide)).2.2.1

/-! ### Board/controller operations (claims C3, C4, C5, C7) -/

theorem cellAt_col_oob (b : Board) (r c : Nat) (hc : 3 ≤ c) : cellAt b r c = none := by
  unfold cellAt
  split_ifs with h1 h2
  · omega
  · rfl
  · rfl

/-- Claim C3: a successful human move (`computerMove = false`) from
`currentIndex = k` with `k < N - 1` truncates the history to its first
`k+1` entries (which are preserved) and appends one entry: the resulting
length is `k+2` and `currentIndex` becomes `k+1`. -/
theorem handleCellClick_truncates (s : SessionState) (row col : Nat) (s2 : SessionState)
    (hk : s.step + 1 < s.history.length)
    (happ : handleCellClick s row col false = ClickResult.applied s2) :
    s2.history.length = s.step + 2 ∧ s2.step = s.step + 1 ∧
      s2.history.take (s.step + 1) = s.history.take (s.step + 1) := by
  unfold handleCellClick at happ
  split_ifs at happ with hg1 hg2 hg3 hg4
  injection happ with h2
  subst h2
  have hmin : min (s.step + 1) s.history.length = s.step + 1 := by omega
  refine ⟨?_, ?_, ?_⟩
  · simp [appliedState, nextHistoryOf, List.length_take, hmin]
  · simp [appliedState, nextHistoryOf, List.length_take, hmin]
  · simp [appliedState, nextHistoryOf, List.take_append_eq_append_take,
      List.take_take, List.length_take, hmin]

def stateA : SessionState := applyClick initApp (handleCellClick initApp 0 0 false)

def stateB : SessionState := (jumpTo stateA 0).1

def stateC : SessionState := applyClick stateB (handleCellClick stateB 1 1 false)

/-- Claim C3 witness: from a two-entry history at index 0 (after one
move and a jump back), a fresh move yields length 2 = 0+2, index 1. -/
theorem handleCellClick_truncates_witness :
    stateC.history.length = stateB.step + 2 ∧ stateC.step = stateB.step + 1 ∧
      stateC.history.take (stateB.step + 1) = stateB.history.take (stateB.step + 1) :=
  handleCellClick_truncates stateB 1 1 stateC (by decide) (by rfl)

/-- Claim C4 counterexample: `jumpTo(5)` on the fresh session (history
length 1) fails, but the session state is not unchanged: `step` has
already been set to 5 by the `setStep` call that precedes the throwing
`history[stepIdx].board` access. -/
theorem jumpTo_invalid_changes_step :
    (jumpTo initApp 5).2 = false ∧ (jumpTo initApp 5).1.step = 5 ∧ initApp.step = 0 := by
  decide

/-- Claim C4 (amended): `jumpTo` with an out-of-bounds index fails
(throws), leaving board, turn, history and mode unchanged — but
`currentIndex` has already been updated to the invalid index. -/
theorem jumpTo_invalid_behavior (s : SessionState) (idx : Nat)
    (h : s.history.length ≤ idx) :
    (jumpTo s idx).2 = false ∧
    (jumpTo s idx).1.board = s.board ∧
    (jumpTo s idx).1.isXNext = s.isXNext ∧
    (jumpTo s idx).1.history = s.history ∧
    (jumpTo s idx).1.mode = s.mode ∧
    (jumpTo s idx).1.step = idx := by
  unfold jumpTo
  rw [dif_neg (by omega)]
  exact ⟨rfl, rfl, rfl, rfl, rfl, rfl⟩

/-- Claim C4 witness: the amended statement at the fresh session and
index 5. -/
theorem jumpTo_invalid_behavior_witness :
    (jumpTo initApp 5).2 = false ∧
    (jumpTo initApp 5).1.board = initApp.board ∧
    (jumpTo initApp 5).1.isXNext = initApp.isXNext ∧
    (jumpTo initApp 5).1.history = initApp.history ∧
    (jumpTo initApp 5).1.mode = initApp.mode ∧
    (jumpTo initApp 5).1.step = 5 :=
  jumpTo_invalid_behavior initApp 5 (by decide)

/-- Claim C7: `jumpTo(k)` for a valid index leaves the history array
(length and entries) unchanged, sets `currentIndex` to `k`, and the next
turn is X (MarkA) iff `k` is even. -/
theorem jumpTo_valid (s : SessionState) (k : Nat) (hk : k < s.history.length) :
    (jumpTo s k).2 = true ∧
    (jumpTo s k).1.history = s.history ∧
    (jumpTo s k).1.step = k ∧
    (currentPlayer (jumpTo s k).1 = Mark.X ↔ k % 2 = 0) := by
  unfold jumpTo
  rw [dif_pos hk]
  refine ⟨rfl, rfl, rfl, ?_⟩
  unfold currentPlayer
  by_cases h2 : k % 2 = 0 <;> simp [h2]

/-- Claim C7 witness: valid jump to index 0 on the fresh session. -/
theorem jumpTo_valid_witness :
    (jumpTo initApp 0).2 = true ∧
    (jumpTo initApp 0).1.history = initApp.history ∧
    (jumpTo initApp 0).1.step = 0 ∧
    (currentPlayer (jumpTo initApp 0).1 = Mark.X ↔ 0 % 2 = 0) :=
  jumpTo_valid initApp 0 (by decide)

def clickAccepted : ClickResult → Bool
  | ClickResult.applied _ => true
  | ClickResult.rejected => false
  | ClickResult.threw => false

/-- The `move` field of the most recently recorded history entry. -/
def lastMove (s : SessionState) : Option (Nat × Nat) :=
  match s.history.getLast? with
  | some e => e.move
  | none => none

def stateC5 : SessionState := applyClick initApp (handleCellClick initApp 0 5 false)

/-- Claim C5 counterexample: `handleCellClick(0, 5)` on the fresh
session — column out of `[0,2]` — is NOT rejected: `board[0][5]` is
`undefined` (falsy), so the guard passes, a history entry with move
`(0,5)` is appended and the turn flips, while no cell changes.  The
claim requires such a move to fail with the state unchanged. -/
theorem handleCellClick_out_of_range_accepted :
    clickAccepted (handleCellClick initApp 0 5 false) = true ∧
    stateC5.history.length = 2 ∧
    lastMove stateC5 = some (0, 5) ∧
    stateC5.board = initApp.board ∧
    stateC5.isXNext = false := by
  decide

/-- Claim C5 (amended): an in-range occupied target is always rejected
with the state unchanged; a row ≥ 3 throws (never applies a move); any
applied move sets exactly the targeted index pair and leaves every other
cell unchanged (so a col ≥ 3 "move" changes no cell at all, yet is
accepted whenever the game is running and it is the mover's turn); the
input snapshot value is never mutated (the new board is a fresh
function of the old). -/
theorem handleCellClick_apply_spec (s : SessionState) (row col : Nat) (cm : Bool) :
    (row < 3 → (cellAt s.board row col).isSome = true →
        handleCellClick s row col cm = ClickResult.rejected) ∧
    (3 ≤ row → ∀ s2, handleCellClick s row col cm ≠ ClickResult.applied s2) ∧
    (∀ s2, handleCellClick s row col cm = ClickResult.applied s2 →
        ∀ i j : Fin 3,
          ((i : Nat) = row ∧ (j : Nat) = col → s2.board i j = some (currentPlayer s)) ∧
          (¬ ((i : Nat) = row ∧ (j : Nat) = col) → s2.board i j = s.board i j)) ∧
    ((calculateWinner s.board).isSome = false → row < 3 → 3 ≤ col →
        ¬ (s.mode = Mode.pvc ∧ s.isXNext = false ∧ cm = false) →
        handleCellClick s row col cm = ClickResult.applied (appliedState s row col)) := by
  refine ⟨?_, ?_, ?_, ?_⟩
  · intro hr hocc
    unfold handleCellClick
    split_ifs with hg1 hg2
    · rfl
    · omega
    · rfl
  · intro hr s2 hcontra
    unfold handleCellClick at hcontra
    split_ifs at hcontra with hg1
  · intro s2 happ i j
    unfold handleCellClick at happ
    split_ifs at happ with hg1 hg2 hg3 hg4
    injection happ with h2
    subst h2
    simp only [appliedState, nextBoardOf]
    refine ⟨fun hij => ?_, fun hij => ?_⟩
    · rw [if_pos hij]
    · rw [if_neg hij]
  · intro hw hr hc hmode
    unfold handleCellClick
    split_ifs with hg1 hg2 hg3
    · rw [hg1] at hw
      exact absurd hw (by simp)
    · omega
    · rw [cellAt_col_oob s.board row col hc] at hg3
      exact absurd hg3 (by simp)
    · rfl

/-- Claim C5 witness (amended statement, last conjunct): the out-of-range
column (0,5) is accepted on the fresh session. -/
theorem handleCellClick_apply_spec_witness :
    handleCellClick initApp 0 5 false = ClickResult.applied (appliedState initApp 0 5) :=
  (handleCellClick_apply_spec initApp 0 5 false).2.2.2
    (by decide) (by decide) (by decide) (by decide)

/-! ### Computer-turn validation (claim C2) -/

def stateC2a : SessionState := handleModeChange initApp Mode.pvc

def stateC2b : SessionState := applyClick stateC2a (handleCellClick stateC2a 0 0 false)

def stateC2c : SessionState := doAIMove stateC2b (Except.ok (some [0, 5]))

/-- Claim C2 failing input: in a PvC game after X at (0,0), a suggestion
parsing to `[0, 5]` (column out of `[0,2]`) passes the validity check —
`board[0][5]` is `undefined`, hence falsy — and is handed to
`handleCellClick` instead of being discarded: a history entry recording
move `(0,5)` is appended and the turn flips back to X, while no cell is
marked and the fallback selector is never used (it would have marked
(0,1)).  The applied "move" is not legal, contradicting the claim. -/
theorem doAIMove_out_of_range_col :
    stateC2c.history.length = 3 ∧
    lastMove stateC2c = some (0, 5) ∧
    stateC2c.board = stateC2b.board ∧
    stateC2c.isXNext = true := by
  decide

/-! ### Suggestion-response parsing (claim C8) -/

theorem matchPairAt_nil : matchPairAt [] = none := rfl

/-- `String.prototype.match` returns the leftmost occurrence: the scan
succeeds with matched text `m` iff the pattern matches at some position
and at no earlier position. -/
theorem scanFirstPair_eq_some_iff (l : List Char) (m : List Char) :
    scanFirstPair l = some m ↔
      ∃ i, matchPairAt (List.drop i l) = some m ∧
        ∀ j, j < i → matchPairAt (List.drop j l) = none := by
  induction l with
  | nil =>
    simp [scanFirstPair, matchPairAt_nil]
  | cons ch t ih =>
    cases h : matchPairAt (ch :: t) with
    | some p =>
      simp only [scanFirstPair, h]
      constructor
      · intro he
        injection he with he2
        subst he2
        exact ⟨0, h, fun j hj => absurd hj (by omega)⟩
      · rintro ⟨i, hget, hmin⟩
        cases i with
        | zero =>
          simp only [List.drop] at hget
          rw [h] at hget
          exact hget
        | succ i2 =>
          have h0 := hmin 0 (by omega)
          simp only [List.drop] at h0
          rw [h] at h0
          exact absurd h0 (by simp)
    | none =>
      simp only [scanFirstPair, h]
      rw [ih]
      constructor
      · rintro ⟨i, hget, hmin⟩
        refine ⟨i + 1, by simpa using hget, ?_⟩
        rintro j hj
        cases j with
        | zero => exact h
        | succ j2 => simpa using hmin j2 (by omega)
      · rintro ⟨i, hget, hmin⟩
        cases i with
        | zero =>
          simp only [List.drop] at hget
          rw [h] at hget
          exact absurd hget (by simp)
        | succ i2 =>
          exact ⟨i2, by simpa using hget, fun j hj => by simpa using hmin (j + 1) (by omega)⟩

/-- Claim C8 counterexample: for the response text `"[1, 2, 3]"` no
substring matches the two-integer pattern, yet the parser does not
return Unavailable: the `raw.startsWith("[")` fallback `JSON.parse`s the
whole text and yields `[1, 2, 3]`. -/
theorem getOpenAIMoveParse_json_fallback :
    scanFirstPair (trimChars ("[1, 2, 3]".toList)) = none ∧
    getOpenAIMoveParse "[1, 2, 3]" = some [1, 2, 3] := by
  exact ⟨by decide, by decide⟩

/-- Claim C8 (amended): the parser scans the trimmed response (JS
`trim`, which strips the full ECMAScript whitespace set) for the
leftmost substring matching the bracketed two-integer pattern (optional
spaces) and returns the result of `JSON.parse` on that substring — the
coordinate pair for canonical numerals, but a failure (Unavailable) when
a numeral has a leading zero, as in `"[01, 2]"`, since that parse
throws.  When no such substring exists the result is not always
Unavailable: if the trimmed text starts with `[` the entire text is
`JSON.parse`d and its value returned (e.g. `"[1, 2, 3]"`, also behind
non-space whitespace as in `"\x0b[1, 2, 3]"`, yields `[1,2,3]`), and
only otherwise — or when that parse throws — is the result Unavailable.
The examples hold: `"Sure! [1, 2] is my move."` parses to `(1,2)` and
`"invalid"` is Unavailable. -/
theorem getOpenAIMoveParse_spec :
    (∀ (l : List Char) (m : List Char),
        scanFirstPair l = some m ↔
          ∃ i, matchPairAt (List.drop i l) = some m ∧
            ∀ j, j < i → matchPairAt (List.drop j l) = none) ∧
    (∀ (raw : String) (m : List Char),
        scanFirstPair (trimChars raw.toList) = some m →
        getOpenAIMoveParse raw = parseJsonNatArray m) ∧
    (∀ (raw : String),
        scanFirstPair (trimChars raw.toList) = none →
        (trimChars raw.toList).head? ≠ some '[' →
        getOpenAIMoveParse raw = none) ∧
    getOpenAIMoveParse "Sure! [1, 2] is my move." = some [1, 2] ∧
    getOpenAIMoveParse "[01, 2]" = none ∧
    getOpenAIMoveParse "\x0b[1, 2, 3]" = some [1, 2, 3] ∧
    getOpenAIMoveParse "invalid" = none := by
  refine ⟨scanFirstPair_eq_some_iff, ?_, ?_, by decide, by decide, by decide, by decide⟩
  · intro raw m h
    unfold getOpenAIMoveParse getOpenAIMoveParseList
    rw [h]
  · intro raw h hbr
    unfold getOpenAIMoveParse getOpenAIMoveParseList
    rw [h, if_neg hbr]

/-- Claim C8 witness: the universal regex-path conjunct instantiated on
the example response, whose leftmost matched substring is `"[1, 2]"`. -/
theorem getOpenAIMoveParse_spec_witness :
    getOpenAIMoveParse "Sure! [1, 2] is my move." = parseJsonNatArray ("[1, 2]".toList) :=
  getOpenAIMoveParse_spec.2.1 "Sure! [1, 2] is my move." ("[1, 2]".toList) (by decide)

/-! ### Reachable session states (claims C9, C10) -/

/-- Session states reachable through the App handlers: the initial
state, cell clicks (human or computer; rejected and throwing calls leave
the state as it was), jumps (including failed out-of-range ones), resets
and mode changes. -/
inductive Reachable : SessionState → Prop where
  | init : Reachable initApp
  | click (s : SessionState) (row col : Nat) (cm : Bool) :
      Reachable s → Reachable (applyClick s (handleCellClick s row col cm))
  | jump (s : SessionState) (idx : Nat) : Reachable s → Reachable (jumpTo s idx).1
  | reset (s : SessionState) : Reachable s → Reachable (handleReset s)
  | modeChange (s : SessionState) (m : Mode) : Reachable s → Reachable (handleModeChange s m)

theorem applyClick_cases (s : SessionState) (row col : Nat) (cm : Bool) :
    applyClick s (handleCellClick s row col cm) = s ∨
      applyClick s (handleCellClick s row col cm) = appliedState s row col := by
  unfold handleCellClick
  split_ifs <;> simp [applyClick]

theorem jumpTo_history (s : SessionState) (idx : Nat) :
    (jumpTo s idx).1.history = s.history := by
  unfold jumpTo
  split <;> rfl

theorem head?_take_append {α : Type} (l : List α) (n : Nat) (e a : α)
    (h : l.head? = some a) : ((l.take (n + 1)) ++ [e]).head? = some a := by
  cases l with
  | nil => simp at h
  | cons x t =>
    rw [List.take_succ_cons, List.cons_append]
    simpa using h

/-- The `player` field recorded in `history[0]` (if any). -/
def headPlayer (s : SessionState) : Option (Option Mark) :=
  match s.history.head? with
  | some e => some e.player
  | none => none

/-- Claim C9 counterexample: already in the (reachable) initial state,
`history[0]` records the player `"X"` — not "no recorded player" as the
claim demands. -/
theorem initial_entry_player_recorded :
    Reachable initApp ∧ headPlayer initApp = some (some Mark.X) :=
  ⟨Reachable.init, rfl⟩

/-- Claim C9 (amended): in every reachable session state, `history[0]`
is the all-Empty board with no recorded move, but it does carry a
player field, always the X mark (the source initialises the entry with
`player: "X"`). -/
theorem history_head_invariant (s : SessionState) (hs : Reachable s) :
    s.history.head? = some { board := createEmptyBoard, move := none, player := some Mark.X } := by
  induction hs with
  | init => rfl
  | click s2 row col cm hr ih =>
    rcases applyClick_cases s2 row col cm with h | h <;> rw [h]
    · exact ih
    · simp only [appliedState, nextHistoryOf]
      exact head?_take_append s2.history s2.step (newEntry s2 row col) initEntry ih
  | jump s2 idx hr ih =>
    rw [jumpTo_history]
    exact ih
  | reset s2 hr ih => rfl
  | modeChange s2 m hr ih => rfl

/-- Claim C9 witness: the amended invariant at the initial state. -/
theorem history_head_invariant_witness :
    initApp.history.head? =
      some { board := createEmptyBoard, move := none, player := some Mark.X } :=
  history_head_invariant initApp Reachable.init

/-- In every reachable state whose `currentIndex` is in bounds, the
current board is the snapshot stored at `history[currentIndex]`. -/
theorem board_matches_history (s : SessionState) (hs : Reachable s) :
    ∀ h : s.step < s.history.length, s.board = (s.history.get ⟨s.step, h⟩).board := by
  induction hs with
  | init => intro h; rfl
  | click s2 row col cm hr ih =>
    rcases applyClick_cases s2 row col cm with heq | heq <;> rw [heq]
    · exact ih
    · intro h
      simp only [appliedState, nextHistoryOf, List.get_eq_getElem] at h ⊢
      rw [List.getElem_concat_length _ _ _ (by simp)]
      rfl
  | jump s2 idx hr ih =>
    unfold jumpTo
    by_cases hlt : idx < s2.history.length
    · rw [dif_pos hlt]
      intro h
      rfl
    · rw [dif_neg hlt]
      intro h
      exact absurd h hlt
  | reset s2 hr ih => intro h; rfl
  | modeChange s2 m hr ih => intro h; rfl

/-- Claim C10: (1) after a valid `jumpTo(k)` the current board is the
snapshot stored in `history[k]`; (2) in a reachable state with valid
`currentIndex`, applying a move via `handleCellClick` and then jumping
back to the old `currentIndex` restores exactly the board that was
current before the move. -/
theorem jumpTo_round_trip :
    (∀ (s : SessionState) (k : Nat) (hk : k < s.history.length),
        (jumpTo s k).1.board = (s.history.get ⟨k, hk⟩).board) ∧
    (∀ (s s2 : SessionState) (row col : Nat) (cm : Bool),
        Reachable s →
        ∀ hs : s.step < s.history.length,
        handleCellClick s row col cm = ClickResult.applied s2 →
        (jumpTo s2 s.step).1.board = s.board) := by
  have part1 : ∀ (s : SessionState) (k : Nat) (hk : k < s.history.length),
      (jumpTo s k).1.board = (s.history.get ⟨k, hk⟩).board := by
    intro s k hk
    unfold jumpTo
    rw [dif_pos hk]
  refine ⟨part1, ?_⟩
  intro s s2 row col cm hreach hs happ
  unfold handleCellClick at happ
  split_ifs at happ with hg1 hg2 hg3 hg4
  injection happ with h2
  subst h2
  have hsv : s.step < (appliedState s row col).history.length := by
    simp only [appliedState, nextHistoryOf, List.length_append, List.length_take,
      List.length_cons, List.length_nil]
    omega
  rw [part1 (appliedState s row col) s.step hsv]
  have hstep : s.step < (s.history.take (s.step + 1)).length := by
    simp only [List.length_take]
    omega
  simp only [appliedState, nextHistoryOf, List.get_eq_getElem]
  rw [List.getElem_append_left hstep, List.getElem_take]
  rw [board_matches_history s hreach hs]
  simp [List.get_eq_getElem]

/-- Claim C10 witness: on the fresh session, play (0,0) and jump back to
index 0; the board is the empty board again. -/
theorem jumpTo_round_trip_witness :
    (jumpTo stateA 0).1.board = initApp.board :=
  jumpTo_round_trip.2 initApp stateA 0 0 false Reachable.init (by decide) (by rfl)
